import Mathlib

/-
Verification of the face-image dataset pipeline
(stages s2_align, s3_degrade, s4_gfpgan of the repository).

Shallow embedding conventions:
* A file on disk is abstracted by the attributes the pipeline inspects:
  byte size, whether PIL fully decodes it (Image.open + im.load + convert),
  and its decoded width/height.  `Option FileData` stands for one path:
  `none` means the path does not exist (`os.path.isfile` is false).
* A directory is a `List (String × FileData)`: the pairs returned by
  `os.listdir` together with each file's data.  `os.listdir` yields
  distinct names, so theorems carry a `Nodup` hypothesis on the keys.
* Geometry (bbox transform, similarity estimation) is embedded over `ℚ`:
  the source computes with IEEE floats, the model uses exact arithmetic.
* Per-item fallible steps (image load, degradation, model inference,
  save) are oracles `String → Bool` / `String → Option FileData` supplied
  in an environment record: each stands for whether the corresponding
  `try` block in the source succeeds and, for a save, for the file data
  the write leaves at the final path.
-/

namespace Pipeline

/-- Observable attributes of an on-disk file, as inspected by
`src/s3_degrade/utils/io.py` and `src/s4_gfpgan/utils/io.py`. -/
structure FileData where
  sizeBytes : Nat
  decodesOk : Bool
  width : Nat
  height : Nat
deriving DecidableEq, Repr

/-- Embedding of `_is_valid_rgb(path, expect_size)` from
`src/s3_degrade/utils/io.py` (lines 27-42): the path must be a regular
file, its byte size must be at least 1024, PIL must fully decode it
(`decodesOk` also covers the `im.convert("RGB")` fallback raising), the
decoded width and height must be positive, and when `expect` is given the
decoded `(w, h)` must equal it exactly.  Any exception yields `false`. -/
def isValidRgb (f : Option FileData) (expect : Option (Nat × Nat)) : Bool :=
  match f with
  | none => false
  | some d =>
    if d.sizeBytes < 1024 then false
    else if ¬ d.decodesOk then false
    else if d.width = 0 ∨ d.height = 0 then false
    else
      match expect with
      | some wh => decide ((d.width, d.height) = wh)
      | none => true

/-- The three-way classification of the spec's ValidityScanner.  The code
keeps `_is_valid_rgb` boolean; the Missing/Corrupt split is the one the
scheduler takes in `src/s3_degrade/stage.py` (lines 112-115): a required
name absent from `os.listdir` is missing, a present file that fails
`_is_valid_rgb` is corrupt. -/
inductive ValidityState where
  | Valid
  | Missing
  | Corrupt
deriving DecidableEq, Repr

/-- `classify` combines existence with `_is_valid_rgb`, exactly as the
scheduler's `missing` / `corrupt` partition does. -/
def classify (f : Option FileData) (expect : Option (Nat × Nat)) : ValidityState :=
  match f with
  | none => .Missing
  | some d => if isValidRgb (some d) expect then .Valid else .Corrupt

/-- The claim's characterisation of Valid, written from the spec's words:
the file exists, its size is above the sanity floor, it fully decodes
with positive width and height, and when expected dimensions are supplied
they match exactly. -/
def validSpec (f : Option FileData) (expect : Option (Nat × Nat)) : Prop :=
  ∃ d, f = some d ∧ 1024 ≤ d.sizeBytes ∧ d.decodesOk = true ∧
    0 < d.width ∧ 0 < d.height ∧
    ∀ wh, expect = some wh → (d.width, d.height) = wh

/-- C7: for every path and optional expected dimensions, the validity
classifier returns Valid iff the file exists, its byte size is above the
sanity floor (1024 bytes), it fully decodes with positive width and
height, and, when expected dimensions are supplied, they match exactly;
a non-existent file is Missing and any existing file failing one of
these conditions is Corrupt. -/
theorem classify_valid_iff (f : Option FileData) (expect : Option (Nat × Nat)) :
    (classify f expect = .Valid ↔ validSpec f expect) ∧
    (classify f expect = .Missing ↔ f = none) ∧
    (classify f expect = .Corrupt ↔ f ≠ none ∧ ¬ validSpec f expect) := by
  rcases f with _ | d
  · refine ⟨?_, ?_, ?_⟩ <;> simp [classify, validSpec]
  · have hval : isValidRgb (some d) expect = true ↔ validSpec (some d) expect := by
      constructor
      · intro h
        refine ⟨d, rfl, ?_⟩
        rcases expect with _ | wh <;>
          simp only [isValidRgb] at h <;>
          split_ifs at h with h1 h2 h3 <;>
          push_neg at * <;>
          refine ⟨by omega, by simpa using h2, ?_, ?_, ?_⟩ <;>
          first
            | omega
            | simp_all
            | (intro wh' hwh'; simp_all)
      · rintro ⟨d', hd', hsize, hdec, hw, hh, hexp⟩
        obtain rfl : d = d' := by injection hd'
        rcases expect with _ | wh
        · simp [isValidRgb, hdec]
          constructor
          · omega
          · constructor
            · omega
            · omega
        · have := hexp wh rfl
          simp [isValidRgb, hdec, this]
          constructor
          · omega
          · constructor
            · omega
            · omega
    refine ⟨?_, ?_, ?_⟩
    · constructor
      · intro h
        by_cases hv : isValidRgb (some d) expect = true
        · exact hval.mp hv
        · simp [classify, hv] at h
      · intro h
        simp [classify, hval.mpr h]
    · simp [classify]
      split_ifs <;> simp
    · constructor
      · intro h
        refine ⟨by simp, ?_⟩
        intro hv
        have := hval.mpr hv
        simp [classify, this] at h
      · rintro ⟨-, hv⟩
        have : isValidRgb (some d) expect ≠ true := fun hc => hv (hval.mp hc)
        simp [classify, this]

/-! ### Atomic writes (s3 `save_image_atomic` vs s4 `save_image_jpeg`) -/

/-- A primitive filesystem mutation performed by a save routine. -/
inductive FsOp where
  | writeData (path : String)
  | rename (src : String) (dst : String)
deriving DecidableEq, Repr

/-- Trace of `save_image_atomic(img, path)` from
`src/s3_degrade/utils/io.py` (lines 64-69): the JPEG bytes go to
`path + ".tmp"`, then `os.replace(tmp, path)` renames into place. -/
def saveImageAtomicOps (path : String) : List FsOp :=
  [.writeData (path ++ ".tmp"), .rename (path ++ ".tmp") path]

/-- Trace of `save_image_jpeg(img, path)` from
`src/s4_gfpgan/utils/io.py` (lines 65-67) and, identically, from
`src/s4_codeformer/utils/io.py`: `img.save(path, ...)` writes the bytes
directly to the final path. -/
def saveImageJpegOps (path : String) : List FsOp :=
  [.writeData path]

/-- A write trace is atomic for a final path when it writes the data to
some distinct temporary path and then renames it into place, the rename
being the only operation that touches the final path. -/
def AtomicWrite (ops : List FsOp) (final : String) : Prop :=
  ∃ tmp, tmp ≠ final ∧ ops = [.writeData tmp, .rename tmp final]

theorem tmpPath_ne (path : String) : path ++ ".tmp" ≠ path := by
  intro h
  have := congrArg String.length h
  rw [String.length_append] at this
  have h4 : ".tmp".length = 4 := rfl
  omega

/-- C6 counterexample: the restoration stage's per-item write
(`save_image_jpeg` in `src/s4_gfpgan/utils/io.py`) is not atomic — it
writes the bytes directly to the final path, with no temporary path and
no rename — so not every derived-artifact stage writes atomically. -/
theorem saveImageJpeg_not_atomic :
    ¬ AtomicWrite (saveImageJpegOps "out.jpg") "out.jpg" := by
  rintro ⟨tmp, -, heq⟩
  simp [saveImageJpegOps] at heq

/-- C6 amended: the degradation stage's per-item write
(`save_image_atomic`) is atomic — bytes to `path + ".tmp"`, then a rename
that is the only operation touching the final path — while the
restoration stages' `save_image_jpeg` writes directly to the final path
with no temporary file and no rename. -/
theorem saveImageAtomic_atomic_saveImageJpeg_not (path : String) :
    AtomicWrite (saveImageAtomicOps path) path ∧
    ¬ AtomicWrite (saveImageJpegOps path) path := by
  constructor
  · exact ⟨path ++ ".tmp", tmpPath_ne path, rfl⟩
  · rintro ⟨tmp, -, heq⟩
    simp [saveImageJpegOps] at heq

/-! ### Bounding-box transform (s2b `_transform_bbox`) -/

/-- Canvas side of the canonical aligned frame, `TARGET_SIZE` in
`src/s2_align/s2a.py` (line 38). -/
def TARGET_SIZE : ℚ := 256

/-- Embedding of `_transform_bbox(M, x, y, w, h)` from
`src/s2_align/s2b.py` (lines 46-76), over exact rationals in place of
float32.  `M` is the 2×3 affine matrix; the two opposite corners
`(x, y)` and `(x+w, y+h)` are transformed, the axis-aligned hull is
taken, and the result is clamped to the 256×256 canvas. -/
def transformBbox (M : Fin 2 → Fin 3 → ℚ) (x y w h : ℚ) : ℚ × ℚ × ℚ × ℚ :=
  let u1 := M 0 0 * x + M 0 1 * y + M 0 2
  let v1 := M 1 0 * x + M 1 1 * y + M 1 2
  let u2 := M 0 0 * (x + w) + M 0 1 * (y + h) + M 0 2
  let v2 := M 1 0 * (x + w) + M 1 1 * (y + h) + M 1 2
  let xMin := min u1 u2
  let yMin := min v1 v2
  let xMax := max u1 u2
  let yMax := max v1 v2
  let wNew := xMax - xMin
  let hNew := yMax - yMin
  let xc := max 0 (min xMin (TARGET_SIZE - 1))
  let yc := max 0 (min yMin (TARGET_SIZE - 1))
  let wc := max 1 (min wNew (TARGET_SIZE - xc))
  let hc := max 1 (min hNew (TARGET_SIZE - yc))
  (xc, yc, wc, hc)

/-- C2: for every input box and every transform matrix, `_transform_bbox`
returns a box whose origin coordinates lie in `[0, 255]`, whose width and
height are at least 1, and whose origin plus extent never exceeds the
256-pixel canvas bound on either axis. -/
theorem transformBbox_in_canvas (M : Fin 2 → Fin 3 → ℚ) (x y w h : ℚ) :
    0 ≤ (transformBbox M x y w h).1 ∧
    (transformBbox M x y w h).1 ≤ TARGET_SIZE - 1 ∧
    0 ≤ (transformBbox M x y w h).2.1 ∧
    (transformBbox M x y w h).2.1 ≤ TARGET_SIZE - 1 ∧
    1 ≤ (transformBbox M x y w h).2.2.1 ∧
    1 ≤ (transformBbox M x y w h).2.2.2 ∧
    (transformBbox M x y w h).1 + (transformBbox M x y w h).2.2.1 ≤ TARGET_SIZE ∧
    (transformBbox M x y w h).2.1 + (transformBbox M x y w h).2.2.2 ≤ TARGET_SIZE := by
  unfold transformBbox
  simp only [TARGET_SIZE]
  set u1 := M 0 0 * x + M 0 1 * y + M 0 2 with hu1
  set v1 := M 1 0 * x + M 1 1 * y + M 1 2 with hv1
  set u2 := M 0 0 * (x + w) + M 0 1 * (y + h) + M 0 2 with hu2
  set v2 := M 1 0 * (x + w) + M 1 1 * (y + h) + M 1 2 with hv2
  set xc := max 0 (min (min u1 u2) (256 - 1 : ℚ)) with hxc
  set yc := max 0 (min (min v1 v2) (256 - 1 : ℚ)) with hyc
  have hxc0 : 0 ≤ xc := le_max_left _ _
  have hyc0 : 0 ≤ yc := le_max_left _ _
  have hxc255 : xc ≤ 256 - 1 := by
    rw [hxc]
    exact max_le (by norm_num) (min_le_right _ _)
  have hyc255 : yc ≤ 256 - 1 := by
    rw [hyc]
    exact max_le (by norm_num) (min_le_right _ _)
  have hwc : max 1 (min (max u1 u2 - min u1 u2) (256 - xc)) ≤ 256 - xc :=
    max_le (by linarith) (min_le_right _ _)
  have hhc : max 1 (min (max v1 v2 - min v1 v2) (256 - yc)) ≤ 256 - yc :=
    max_le (by linarith) (min_le_right _ _)
  refine ⟨hxc0, hxc255, hyc0, hyc255, le_max_left _ _, le_max_left _ _, ?_, ?_⟩
  · linarith
  · linarith

/-! ### s3 incremental build scheduler (`src/s3_degrade/stage.py`, `run`)

One degradation preset owns one output directory
(`results/outputs/s3-degrade/<preset>/imgs`).  A manifest row's
`path_deg` is `<preset dir>/<id>`, so a path lookup is a lookup of the
row's `id` inside the row's preset directory; the model keys files by
`(preset, id)` accordingly. -/

/-- `os.path.isfile` + read of one name inside a directory listing. -/
def lookupFile (dir : List (String × FileData)) (fn : String) : Option FileData :=
  (dir.find? (fun e => e.1 == fn)).map Prod.snd

/-- `set(os.listdir(out_dir))` (stage.py line 113), files only. -/
def existingFiles (dir : List (String × FileData)) : List String :=
  dir.map Prod.fst

/-- `list_valid_rgb_images(out_dir, expect_size)` (io.py lines 45-53):
the names in the directory whose file passes `_is_valid_rgb`. -/
def validNow (dir : List (String × FileData)) (expect : Option (Nat × Nat)) : List String :=
  (dir.filter (fun e => isValidRgb (some e.2) expect)).map Prod.fst

/-- `missing = [fn for fn in filenames if fn not in existing_files]`
(stage.py line 114). -/
def missingOf (filenames : List String) (dir : List (String × FileData)) : List String :=
  filenames.filter (fun fn => decide (fn ∉ existingFiles dir))

/-- `corrupt = [fn for fn in existing_files if fn not in valid_now]`
(stage.py line 115). -/
def corruptOf (dir : List (String × FileData)) (expect : Option (Nat × Nat)) : List String :=
  (existingFiles dir).filter (fun fn => decide (fn ∉ validNow dir expect))

/-- `to_build = set(missing) | set(corrupt)` (stage.py line 122). -/
def toBuild (filenames : List String) (dir : List (String × FileData))
    (expect : Option (Nat × Nat)) : Finset String :=
  (missingOf filenames dir ++ corruptOf dir expect).toFinset

/-- Stage-wide inputs of the s3 run: the required aligned filenames, the
partition map (`id → split`), and the expected output dimensions. -/
structure S3Env where
  filenames : List String
  partition : String → Option Int
  expect : Option (Nat × Nat)

/-- One preset's run inputs: its name, its output directory's initial
contents, and the per-item success oracles — `loadOk fn` stands for
`load_image(path_gt)` not raising, `degradeOk fn` for
`apply_degradation` not raising, and `savedData fn` for the outcome of
`save_image_atomic` (`none` when save raises; otherwise the file data
the atomic rename leaves at `path_deg`). -/
structure S3PresetRun where
  name : String
  dir0 : List (String × FileData)
  loadOk : String → Bool
  degradeOk : String → Bool
  savedData : String → Option FileData

/-- `os.replace` onto `path_deg`: replace the entry with key `fn` when
present, append it otherwise. -/
def upsert (dir : List (String × FileData)) (fn : String) (d : FileData) :
    List (String × FileData) :=
  if fn ∈ existingFiles dir then
    dir.map (fun e => if e.1 == fn then (fn, d) else e)
  else dir ++ [(fn, d)]

/-- State threaded through the build loop of stage.py lines 128-166:
the output directory's contents, the number of `apply_degradation`
calls, the number of completed saves (`processed_this_run`) and the
number of ids skipped for lack of a partition entry. -/
structure BuildAcc where
  dir : List (String × FileData)
  transforms : Nat
  writes : Nat
  missingPartition : Nat

/-- One iteration of the build loop (stage.py lines 131-166): skip
filenames outside `to_build`; skip (counting) on missing partition
entry; then load → degrade → atomic save, each failure skipping the
item. -/
def buildStep (env : S3Env) (p : S3PresetRun) (tb : Finset String)
    (acc : BuildAcc) (fn : String) : BuildAcc :=
  if fn ∈ tb then
    match env.partition fn with
    | none => { acc with missingPartition := acc.missingPartition + 1 }
    | some _ =>
      if p.loadOk fn then
        let acc1 := { acc with transforms := acc.transforms + 1 }
        if p.degradeOk fn then
          match p.savedData fn with
          | some d => { acc1 with dir := upsert acc1.dir fn d, writes := acc1.writes + 1 }
          | none => acc1
        else acc1
      else acc
  else acc

/-- The whole build loop over the required filenames, starting from
directory contents `dir`. -/
def buildPass (env : S3Env) (p : S3PresetRun) (dir : List (String × FileData))
    (tb : Finset String) : BuildAcc :=
  env.filenames.foldl (buildStep env p tb) ⟨dir, 0, 0, 0⟩

/-- One manifest row of `s3_degrade_manifest.csv`; `path_gt` and
`path_deg` are determined by `(id, preset)`. -/
structure S3Row where
  id : String
  preset : String
  split : Int
deriving DecidableEq, Repr

/-- Manifest collection for one preset (stage.py lines 173-185): one row
per currently-valid file that has a partition entry. -/
def manifestRowsFor (env : S3Env) (presetName : String)
    (dir : List (String × FileData)) : List S3Row :=
  (validNow dir env.expect).filterMap
    (fun fn => (env.partition fn).map (fun s => ⟨fn, presetName, s⟩))

/-- Directory contents of one preset after its build pass. -/
def presetFinalDir (env : S3Env) (p : S3PresetRun) : List (String × FileData) :=
  (buildPass env p p.dir0 (toBuild env.filenames p.dir0 env.expect)).dir

/-- `all_rows` accumulated over all presets (stage.py line 105/178). -/
def s3AllRows (env : S3Env) (ps : List S3PresetRun) : List S3Row :=
  ps.flatMap (fun p => manifestRowsFor env p.name (presetFinalDir env p))

/-- Outcome of the closing section of the s3 run (stage.py lines
187-202): whether a manifest file was persisted, and whether the stage
exited fatally (`SystemExit(1)`). -/
structure S3FinalizeResult where
  manifestWritten : Option (List S3Row)
  exitFatal : Bool
deriving DecidableEq, Repr

/-- Stage.py lines 187-202 in their source order: the manifest is
written (temp file, then `os.replace`) first; only afterwards is
`verify_rgb_images_ok` run over the rows' `path_deg` files (`fileAt`
gives the file found at a row's `path_deg` at verification time), and a
count mismatch raises `SystemExit(1)`. -/
def s3Finalize (rows : List S3Row) (fileAt : S3Row → Option FileData)
    (expect : Option (Nat × Nat)) : S3FinalizeResult :=
  let okCount := rows.countP (fun r => isValidRgb (fileAt r) expect)
  { manifestWritten := some rows, exitFatal := decide (okCount ≠ rows.length) }

/-- The file at a row's `path_deg` when the filesystem is quiescent
between manifest collection and verification: the row's `id` looked up
in its preset's post-build directory. -/
def s3StaticFileAt (env : S3Env) (ps : List S3PresetRun) : S3Row → Option FileData :=
  fun r =>
    match ps.find? (fun p => p.name == r.preset) with
    | some p => lookupFile (presetFinalDir env p) r.id
    | none => none

/-! ### Scheduler lemmas -/

theorem mem_existingFiles {dir : List (String × FileData)} {fn : String} :
    fn ∈ existingFiles dir ↔ ∃ d, (fn, d) ∈ dir := by
  constructor
  · intro h
    rcases List.mem_map.mp h with ⟨⟨a, b⟩, he, hfe⟩
    dsimp at hfe
    subst hfe
    exact ⟨b, he⟩
  · rintro ⟨d, hm⟩
    exact List.mem_map.mpr ⟨(fn, d), hm, rfl⟩

theorem mem_validNow {dir : List (String × FileData)} {expect : Option (Nat × Nat)}
    {fn : String} :
    fn ∈ validNow dir expect ↔
      ∃ d, (fn, d) ∈ dir ∧ isValidRgb (some d) expect = true := by
  constructor
  · intro h
    rcases List.mem_map.mp h with ⟨⟨a, b⟩, he, hfe⟩
    dsimp at hfe
    subst hfe
    rcases List.mem_filter.mp he with ⟨hm, hv⟩
    exact ⟨b, hm, hv⟩
  · rintro ⟨d, hm, hv⟩
    exact List.mem_map.mpr ⟨(fn, d), List.mem_filter.mpr ⟨hm, hv⟩, rfl⟩

theorem lookupFile_eq_none {dir : List (String × FileData)} {fn : String} :
    lookupFile dir fn = none ↔ fn ∉ existingFiles dir := by
  constructor
  · intro h hmem
    rcases mem_existingFiles.mp hmem with ⟨d, hm⟩
    unfold lookupFile at h
    cases hff : dir.find? (fun e => e.1 == fn) with
    | none =>
      rw [List.find?_eq_none] at hff
      have hc := hff (fn, d) hm
      simp at hc
    | some e => rw [hff] at h; simp at h
  · intro h
    unfold lookupFile
    have hff : dir.find? (fun e => e.1 == fn) = none := by
      rw [List.find?_eq_none]
      rintro ⟨a, b⟩ hm hbeq
      have ha : a = fn := by simpa using hbeq
      subst ha
      exact h (mem_existingFiles.mpr ⟨b, hm⟩)
    rw [hff]
    rfl

theorem lookupFile_mem {dir : List (String × FileData)} {fn : String} {d : FileData}
    (h : lookupFile dir fn = some d) : (fn, d) ∈ dir := by
  unfold lookupFile at h
  cases hf : dir.find? (fun e => e.1 == fn) with
  | none => rw [hf] at h; simp at h
  | some e =>
    rw [hf] at h
    have he := List.mem_of_find?_eq_some hf
    have hkey := List.find?_some hf
    rcases e with ⟨a, b⟩
    have ha : a = fn := by simpa using hkey
    have hb : b = d := by simpa using h
    subst ha
    subst hb
    exact he

theorem lookupFile_eq_some_of_mem {dir : List (String × FileData)} {fn : String}
    {d : FileData} (hnd : (existingFiles dir).Nodup) (h : (fn, d) ∈ dir) :
    lookupFile dir fn = some d := by
  induction dir with
  | nil => simp at h
  | cons e tl ih =>
    rcases e with ⟨a, b⟩
    have hnd' : a ∉ existingFiles tl ∧ (existingFiles tl).Nodup := by
      simpa [existingFiles] using hnd
    rcases List.mem_cons.mp h with heq | htl
    · have ha : a = fn := by injection heq with h1 h2; exact h1.symm
      have hb : b = d := by injection heq with h1 h2; exact h2.symm
      subst ha
      subst hb
      unfold lookupFile
      simp [List.find?_cons]
    · have hfn : a ≠ fn := by
        rintro rfl
        exact hnd'.1 (mem_existingFiles.mpr ⟨d, htl⟩)
      have hrec : lookupFile tl fn = some d := ih hnd'.2 htl
      unfold lookupFile at hrec ⊢
      have hbeq : ((a, b).1 == fn) = false := by simpa using hfn
      simpa [List.find?_cons, hbeq] using hrec

theorem validNow_iff_lookup {dir : List (String × FileData)}
    {expect : Option (Nat × Nat)} {fn : String}
    (hnd : (existingFiles dir).Nodup) :
    fn ∈ validNow dir expect ↔ isValidRgb (lookupFile dir fn) expect = true := by
  rw [mem_validNow]
  constructor
  · rintro ⟨d, hm, hv⟩
    rw [lookupFile_eq_some_of_mem hnd hm]
    exact hv
  · intro h
    cases hl : lookupFile dir fn with
    | none => rw [hl] at h; simp [isValidRgb] at h
    | some d => exact ⟨d, lookupFile_mem hl, by rwa [hl] at h⟩

theorem mem_toBuild {filenames : List String} {dir : List (String × FileData)}
    {expect : Option (Nat × Nat)} {fn : String} :
    fn ∈ toBuild filenames dir expect ↔
      (fn ∈ filenames ∧ fn ∉ existingFiles dir) ∨
      (fn ∈ existingFiles dir ∧ fn ∉ validNow dir expect) := by
  simp [toBuild, missingOf, corruptOf, List.mem_filter]

theorem find?_replaceKey (fn : String) (d : FileData)
    (dir : List (String × FileData)) :
    (dir.map (fun e => if e.1 == fn then (fn, d) else e)).find? (fun e => e.1 == fn) =
      if fn ∈ existingFiles dir then some (fn, d) else none := by
  induction dir with
  | nil => simp [existingFiles]
  | cons e tl ih =>
    rcases e with ⟨a, b⟩
    rw [List.map_cons]
    by_cases ha : a = fn
    · subst ha
      have hc : ((a, b).1 == a) = true := by simp
      rw [if_pos hc]
      have hmem : a ∈ existingFiles ((a, b) :: tl) := by simp [existingFiles]
      rw [if_pos hmem]
      simp [List.find?_cons]
    · have hc : ((a, b).1 == fn) = false := by simpa using ha
      rw [if_neg (by simp [hc])]
      have hne : fn ≠ a := fun hcc => ha hcc.symm
      have hiff : (fn ∈ existingFiles ((a, b) :: tl)) ↔ (fn ∈ existingFiles tl) := by
        simp [existingFiles, hne]
      rw [List.find?_cons_of_neg _ (by simp [hc]), ih]
      by_cases hm : fn ∈ existingFiles tl
      · rw [if_pos hm, if_pos (hiff.mpr hm)]
      · rw [if_neg hm, if_neg (fun hcc => hm (hiff.mp hcc))]

theorem find?_replaceKey_ne (fn fn' : String) (d : FileData) (h : fn' ≠ fn)
    (dir : List (String × FileData)) :
    (dir.map (fun e => if e.1 == fn then (fn, d) else e)).find? (fun e => e.1 == fn') =
      dir.find? (fun e => e.1 == fn') := by
  have hffn' : ((fn, d).1 == fn') = false := by
    simpa using fun hc : fn = fn' => h hc.symm
  induction dir with
  | nil => rfl
  | cons e tl ih =>
    rcases e with ⟨a, b⟩
    rw [List.map_cons]
    by_cases ha : a = fn
    · subst ha
      rw [if_pos (by simp)]
      have hab : ((a, b).1 == fn') = false := by
        simpa using fun hc : a = fn' => h hc.symm
      rw [List.find?_cons_of_neg _ (by simp [hffn']),
        List.find?_cons_of_neg _ (by simp [hab])]
      exact ih
    · rw [if_neg (by simpa using ha)]
      by_cases ha' : a = fn'
      · subst ha'
        rw [List.find?_cons_of_pos _ (by simp), List.find?_cons_of_pos _ (by simp)]
      · rw [List.find?_cons_of_neg _ (by simpa using ha'),
          List.find?_cons_of_neg _ (by simpa using ha')]
        exact ih

theorem lookupFile_upsert_self (dir : List (String × FileData)) (fn : String)
    (d : FileData) : lookupFile (upsert dir fn d) fn = some d := by
  unfold upsert
  by_cases hmem : fn ∈ existingFiles dir
  · rw [if_pos hmem]
    unfold lookupFile
    rw [find?_replaceKey fn d dir, if_pos hmem]
    rfl
  · rw [if_neg hmem]
    unfold lookupFile
    rw [List.find?_append]
    have hnone : dir.find? (fun e => e.1 == fn) = none := by
      rw [List.find?_eq_none]
      rintro ⟨a, b⟩ hm hbeq
      have ha : a = fn := by simpa using hbeq
      subst ha
      exact hmem (mem_existingFiles.mpr ⟨b, hm⟩)
    rw [hnone]
    simp

theorem lookupFile_upsert_ne (dir : List (String × FileData)) {fn fn' : String}
    (d : FileData) (h : fn' ≠ fn) :
    lookupFile (upsert dir fn d) fn' = lookupFile dir fn' := by
  unfold upsert
  by_cases hmem : fn ∈ existingFiles dir
  · rw [if_pos hmem]
    unfold lookupFile
    rw [find?_replaceKey_ne fn fn' d h dir]
  · rw [if_neg hmem]
    unfold lookupFile
    rw [List.find?_append]
    have hone : ([(fn, d)].find? (fun e => e.1 == fn')) = none := by
      have hffn' : ((fn, d).1 == fn') = false := by
        simpa using fun hc : fn = fn' => h hc.symm
      simp [List.find?_cons, hffn']
    rw [hone]
    cases hd : dir.find? (fun e => e.1 == fn') <;> simp

theorem existingFiles_upsert_nodup {dir : List (String × FileData)} {fn : String}
    {d : FileData} (hnd : (existingFiles dir).Nodup) :
    (existingFiles (upsert dir fn d)).Nodup := by
  unfold upsert
  by_cases hmem : fn ∈ existingFiles dir
  · rw [if_pos hmem]
    have heq : existingFiles (dir.map (fun e => if e.1 == fn then (fn, d) else e)) =
        existingFiles dir := by
      unfold existingFiles
      rw [List.map_map]
      apply List.map_congr_left
      intro e _
      rcases e with ⟨a, b⟩
      by_cases ha : a = fn
      · subst ha; simp
      · simp [ha]
    rw [heq]
    exact hnd
  · rw [if_neg hmem]
    have heq : existingFiles (dir ++ [(fn, d)]) = existingFiles dir ++ [fn] := by
      unfold existingFiles
      simp
    rw [heq, List.nodup_append]
    refine ⟨hnd, List.nodup_singleton _, fun a ha hb => ?_⟩
    have : a = fn := by simpa using hb
    subst this
    exact hmem ha


/-! ### Build-pass lemmas -/

theorem buildStep_not_mem (env : S3Env) (p : S3PresetRun) (tb : Finset String)
    (acc : BuildAcc) {fn : String} (h : fn ∉ tb) :
    buildStep env p tb acc fn = acc := by
  simp [buildStep, h]

theorem foldl_buildStep_nop (env : S3Env) (p : S3PresetRun) (tb : Finset String) :
    ∀ (l : List String) (acc : BuildAcc), (∀ fn ∈ l, fn ∉ tb) →
      l.foldl (buildStep env p tb) acc = acc
  | [], _, _ => rfl
  | fn :: tl, acc, h => by
      rw [List.foldl_cons, buildStep_not_mem env p tb acc (h fn (List.mem_cons_self _ _)),
        foldl_buildStep_nop env p tb tl acc (fun f hf => h f (List.mem_cons_of_mem _ hf))]

theorem buildStep_lookup_ne (env : S3Env) (p : S3PresetRun) (tb : Finset String)
    (acc : BuildAcc) {fn fn' : String} (h : fn' ≠ fn) :
    lookupFile (buildStep env p tb acc fn).dir fn' = lookupFile acc.dir fn' := by
  unfold buildStep
  split
  · split
    · rfl
    · split
      · split
        · split
          · exact lookupFile_upsert_ne _ _ h
          · rfl
        · rfl
      · rfl
  · rfl

theorem buildStep_nodup (env : S3Env) (p : S3PresetRun) (tb : Finset String)
    (acc : BuildAcc) (fn : String) (hnd : (existingFiles acc.dir).Nodup) :
    (existingFiles (buildStep env p tb acc fn).dir).Nodup := by
  unfold buildStep
  split
  · split
    · exact hnd
    · split
      · split
        · split
          · exact existingFiles_upsert_nodup hnd
          · exact hnd
        · exact hnd
      · exact hnd
  · exact hnd

theorem foldl_buildStep_nodup (env : S3Env) (p : S3PresetRun) (tb : Finset String) :
    ∀ (l : List String) (acc : BuildAcc), (existingFiles acc.dir).Nodup →
      (existingFiles (l.foldl (buildStep env p tb) acc).dir).Nodup
  | [], _, h => h
  | fn :: tl, acc, h =>
      foldl_buildStep_nodup env p tb tl _ (buildStep_nodup env p tb acc fn h)

theorem foldl_buildStep_lookup_not_mem (env : S3Env) (p : S3PresetRun)
    (tb : Finset String) :
    ∀ (l : List String) (acc : BuildAcc) {fn' : String}, fn' ∉ l →
      lookupFile (l.foldl (buildStep env p tb) acc).dir fn' = lookupFile acc.dir fn'
  | [], _, _, _ => rfl
  | fn :: tl, acc, fn', h => by
      have h1 : fn' ≠ fn := fun hc => h (hc ▸ List.mem_cons_self _ _)
      rw [List.foldl_cons,
        foldl_buildStep_lookup_not_mem env p tb tl _ (fun hc => h (List.mem_cons_of_mem _ hc)),
        buildStep_lookup_ne env p tb acc h1]

theorem buildStep_hit (env : S3Env) (p : S3PresetRun) (tb : Finset String)
    (acc : BuildAcc) {fn : String} {s : Int} {d : FileData} (htb : fn ∈ tb)
    (hs : env.partition fn = some s) (hl : p.loadOk fn = true)
    (hd : p.degradeOk fn = true) (hsv : p.savedData fn = some d) :
    buildStep env p tb acc fn =
      ⟨upsert acc.dir fn d, acc.transforms + 1, acc.writes + 1, acc.missingPartition⟩ := by
  simp [buildStep, htb, hs, hl, hd, hsv]

/-! ### Deleting / corrupting one output file (the rerun scenarios) -/

/-- Deleting one file from the output directory (`os.remove`). -/
def removeFile (dir : List (String × FileData)) (fn : String) :
    List (String × FileData) :=
  dir.filter (fun e => decide (e.1 ≠ fn))

/-- Truncating or otherwise damaging one file in place: its directory
entry keeps the name but carries new (invalid) data. -/
def corruptFile (dir : List (String × FileData)) (fn : String) (d : FileData) :
    List (String × FileData) :=
  dir.map (fun e => if e.1 == fn then (fn, d) else e)

theorem mem_removeFile {dir : List (String × FileData)} {fn0 fn : String}
    {d : FileData} :
    (fn, d) ∈ removeFile dir fn0 ↔ (fn, d) ∈ dir ∧ fn ≠ fn0 := by
  unfold removeFile
  rw [List.mem_filter]
  simp

theorem removeFile_not_mem {dir : List (String × FileData)} {fn0 : String} :
    fn0 ∉ existingFiles (removeFile dir fn0) := by
  intro h
  rcases mem_existingFiles.mp h with ⟨d, hm⟩
  exact (mem_removeFile.mp hm).2 rfl

theorem removeFile_nodup {dir : List (String × FileData)} {fn0 : String}
    (hnd : (existingFiles dir).Nodup) :
    (existingFiles (removeFile dir fn0)).Nodup := by
  unfold removeFile existingFiles
  exact (List.Sublist.map Prod.fst (List.filter_sublist dir)).nodup hnd

theorem existingFiles_corruptFile (dir : List (String × FileData)) (fn : String)
    (d : FileData) :
    existingFiles (corruptFile dir fn d) = existingFiles dir := by
  unfold corruptFile existingFiles
  rw [List.map_map]
  apply List.map_congr_left
  intro e _
  rcases e with ⟨a, b⟩
  by_cases ha : a = fn
  · subst ha; simp
  · simp [ha]

theorem mem_corruptFile_ne {dir : List (String × FileData)} {fn0 fn : String}
    {dbad d : FileData} (h : fn ≠ fn0) :
    (fn, d) ∈ corruptFile dir fn0 dbad ↔ (fn, d) ∈ dir := by
  unfold corruptFile
  constructor
  · intro hm
    rcases List.mem_map.mp hm with ⟨⟨a, b⟩, he, htr⟩
    by_cases ha : a = fn0
    · subst ha
      rw [if_pos (by simp)] at htr
      simp only [Prod.mk.injEq] at htr
      exact absurd htr.1.symm h
    · rw [if_neg (by simpa using ha)] at htr
      rw [← htr]
      exact he
  · intro hm
    apply List.mem_map.mpr
    refine ⟨(fn, d), hm, ?_⟩
    rw [if_neg (by simpa using h)]

theorem corruptFile_self_mem {dir : List (String × FileData)} {fn0 : String}
    {dbad : FileData} (h : fn0 ∈ existingFiles dir) :
    (fn0, dbad) ∈ corruptFile dir fn0 dbad := by
  rcases mem_existingFiles.mp h with ⟨d, hm⟩
  exact List.mem_map.mpr ⟨(fn0, d), hm, by simp⟩

/-- A build pass whose to-build set is the single required name `fn0`,
with its partition entry present and its load/degrade/save all
succeeding, performs exactly one transformation and one write: the
upsert of `fn0`. -/
theorem buildPass_single (env : S3Env) (p : S3PresetRun)
    (dir : List (String × FileData)) {fn0 : String} {s0 : Int} {d0 : FileData}
    (hfnnd : env.filenames.Nodup) (hf0 : fn0 ∈ env.filenames)
    (hs : env.partition fn0 = some s0) (hl : p.loadOk fn0 = true)
    (hdg : p.degradeOk fn0 = true) (hsv : p.savedData fn0 = some d0) :
    buildPass env p dir {fn0} = ⟨upsert dir fn0 d0, 1, 1, 0⟩ := by
  rcases List.append_of_mem hf0 with ⟨l1, l2, heq⟩
  have hnd' := hfnnd
  rw [heq, List.nodup_append] at hnd'
  have h1 : fn0 ∉ l1 := fun hc => hnd'.2.2 hc (List.mem_cons_self _ _)
  have h2 : fn0 ∉ l2 := by
    have := hnd'.2.1
    rw [List.nodup_cons] at this
    exact this.1
  unfold buildPass
  rw [heq, List.foldl_append,
    foldl_buildStep_nop env p _ l1 _ (fun fn hfn => by
      simp only [Finset.mem_singleton]
      rintro rfl
      exact h1 hfn),
    List.foldl_cons,
    buildStep_hit env p _ _ (Finset.mem_singleton_self fn0) hs hl hdg hsv,
    foldl_buildStep_nop env p _ l2 _ (fun fn hfn => by
      simp only [Finset.mem_singleton]
      rintro rfl
      exact h2 hfn)]

/-- The to-build set after deleting `fn0` from a directory whose files
are all valid and which covers every required name is exactly `{fn0}`. -/
theorem toBuild_removeFile_eq (env : S3Env) {dir : List (String × FileData)}
    {fn0 : String}
    (hreq : ∀ fn ∈ env.filenames, fn ∈ existingFiles dir)
    (hall : ∀ e ∈ dir, isValidRgb (some e.2) env.expect = true)
    (hf0 : fn0 ∈ env.filenames) :
    toBuild env.filenames (removeFile dir fn0) env.expect = {fn0} := by
  apply Finset.ext
  intro fn
  rw [mem_toBuild, Finset.mem_singleton]
  constructor
  · rintro (⟨hmem, habs⟩ | ⟨hmem, habs⟩)
    · by_contra hne
      apply habs
      rcases mem_existingFiles.mp (hreq fn hmem) with ⟨d, hd⟩
      exact mem_existingFiles.mpr ⟨d, mem_removeFile.mpr ⟨hd, hne⟩⟩
    · exfalso
      apply habs
      rcases mem_existingFiles.mp hmem with ⟨d, hd⟩
      exact mem_validNow.mpr ⟨d, hd, hall (fn, d) (mem_removeFile.mp hd).1⟩
  · rintro rfl
    exact Or.inl ⟨hf0, removeFile_not_mem⟩

/-- The to-build set after corrupting `fn0` in place in a directory whose
files are all valid and which covers every required name is exactly
`{fn0}`. -/
theorem toBuild_corruptFile_eq (env : S3Env) {dir : List (String × FileData)}
    {fn0 : String} {dbad : FileData}
    (hnd : (existingFiles dir).Nodup)
    (hreq : ∀ fn ∈ env.filenames, fn ∈ existingFiles dir)
    (hall : ∀ e ∈ dir, isValidRgb (some e.2) env.expect = true)
    (hf0 : fn0 ∈ env.filenames)
    (hbad : isValidRgb (some dbad) env.expect = false) :
    toBuild env.filenames (corruptFile dir fn0 dbad) env.expect = {fn0} := by
  have hndc : (existingFiles (corruptFile dir fn0 dbad)).Nodup := by
    rw [existingFiles_corruptFile]; exact hnd
  have hnotval : fn0 ∉ validNow (corruptFile dir fn0 dbad) env.expect := by
    rw [validNow_iff_lookup hndc,
      lookupFile_eq_some_of_mem hndc
        (corruptFile_self_mem (hreq fn0 hf0)),
      hbad]
    simp
  apply Finset.ext
  intro fn
  rw [mem_toBuild, Finset.mem_singleton]
  constructor
  · rintro (⟨hmem, habs⟩ | ⟨hmem, habs⟩)
    · exfalso
      apply habs
      rw [existingFiles_corruptFile]
      exact hreq fn hmem
    · by_contra hne
      apply habs
      rw [existingFiles_corruptFile] at hmem
      rcases mem_existingFiles.mp hmem with ⟨d, hd⟩
      exact mem_validNow.mpr ⟨d, (mem_corruptFile_ne hne).mpr hd, hall (fn, d) hd⟩
  · rintro rfl
    refine Or.inr ⟨?_, hnotval⟩
    rw [existingFiles_corruptFile]
    exact hreq _ hf0

/-- C3 counterexample: an output directory in which every required file
is present and Valid but which also holds a stray corrupt file
(`b.jpg`, 10 bytes) has a nonempty to-build set — the stray lands in
`corrupt` and hence in `to_build`, refuting "the to_build set is
empty". -/
theorem idempotence_stray_counterexample :
    (∀ fn ∈ ["a.jpg"],
      isValidRgb (lookupFile
        [("a.jpg", (⟨2000, true, 8, 8⟩ : FileData)),
         ("b.jpg", (⟨10, true, 8, 8⟩ : FileData))] fn) none = true) ∧
    toBuild ["a.jpg"]
      [("a.jpg", (⟨2000, true, 8, 8⟩ : FileData)),
       ("b.jpg", (⟨10, true, 8, 8⟩ : FileData))] none ≠ (∅ : Finset String) := by
  decide

/-- C3 amended: when every required file is present and Valid, no
required filename is in the to-build set, and the run performs zero
transformations and zero image writes, leaving the directory contents
untouched; when moreover the output directory holds no file outside the
required set, the to-build set is empty. -/
theorem valid_required_no_rebuild (env : S3Env) (p : S3PresetRun)
    (hnd : (existingFiles p.dir0).Nodup)
    (hvalid : ∀ fn ∈ env.filenames, isValidRgb (lookupFile p.dir0 fn) env.expect = true) :
    (∀ fn ∈ toBuild env.filenames p.dir0 env.expect, fn ∉ env.filenames) ∧
    buildPass env p p.dir0 (toBuild env.filenames p.dir0 env.expect) =
      ⟨p.dir0, 0, 0, 0⟩ ∧
    ((∀ fn ∈ existingFiles p.dir0, fn ∈ env.filenames) →
      toBuild env.filenames p.dir0 env.expect = ∅) := by
  have hdisj : ∀ fn ∈ env.filenames, fn ∉ toBuild env.filenames p.dir0 env.expect := by
    intro fn hfn htb
    rcases mem_toBuild.mp htb with ⟨_, habs⟩ | ⟨_, habs⟩
    · have hv := hvalid fn hfn
      cases hl : lookupFile p.dir0 fn with
      | none => rw [hl] at hv; simp [isValidRgb] at hv
      | some d => exact habs (mem_existingFiles.mpr ⟨d, lookupFile_mem hl⟩)
    · exact habs ((validNow_iff_lookup hnd).mpr (hvalid fn hfn))
  refine ⟨fun fn htb hfn => hdisj fn hfn htb, ?_, ?_⟩
  · unfold buildPass
    exact foldl_buildStep_nop env p _ env.filenames ⟨p.dir0, 0, 0, 0⟩
      (fun fn hfn => hdisj fn hfn)
  · intro hsub
    apply Finset.eq_empty_iff_forall_not_mem.mpr
    intro fn htb
    have hfn : fn ∈ env.filenames := by
      rcases mem_toBuild.mp htb with ⟨hmem, _⟩ | ⟨hmem, _⟩
      · exact hmem
      · exact hsub fn hmem
    exact hdisj fn hfn htb

theorem valid_required_no_rebuild_witness :
    (∀ fn ∈ ["a.jpg"],
      isValidRgb (lookupFile [("a.jpg", (⟨2000, true, 8, 8⟩ : FileData))] fn) none = true) ∧
    toBuild ["a.jpg"] [("a.jpg", (⟨2000, true, 8, 8⟩ : FileData))] none = ∅ :=
  ⟨by decide,
    (valid_required_no_rebuild ⟨["a.jpg"], fun _ => some 0, none⟩
      ⟨"blur", [("a.jpg", ⟨2000, true, 8, 8⟩)], fun _ => true, fun _ => true,
        fun _ => none⟩
      (by decide) (by decide)).2.2 (by decide)⟩

/-- C4 counterexample: starting from a directory in which every required
file ("a.jpg") is Valid but a stray corrupt file ("b.jpg") also exists,
deleting exactly the one required file yields a to-build set of size
two, not the claimed singleton. -/
theorem minimal_rebuild_stray_counterexample :
    (∀ fn ∈ ["a.jpg"],
      isValidRgb (lookupFile
        [("a.jpg", (⟨2000, true, 8, 8⟩ : FileData)),
         ("b.jpg", (⟨10, true, 8, 8⟩ : FileData))] fn) none = true) ∧
    toBuild ["a.jpg"]
      (removeFile
        [("a.jpg", (⟨2000, true, 8, 8⟩ : FileData)),
         ("b.jpg", (⟨10, true, 8, 8⟩ : FileData))] "a.jpg") none ≠
      ({"a.jpg"} : Finset String) := by
  decide

/-- C4 amended: starting from an output directory in which every file is
Valid and every required filename is present, deleting or corrupting
exactly one required file and rerunning yields a to-build set equal to
exactly that filename, and — provided the file's partition entry exists
and its load, degradation and save succeed — the build pass performs
exactly one transformation and one write, rewrites exactly that file,
and leaves every other path untouched. -/
theorem minimal_rebuild_exact (env : S3Env) (p : S3PresetRun) (fn0 : String)
    (s0 : Int) (d0 dbad : FileData)
    (hnd : (existingFiles p.dir0).Nodup)
    (hfnnd : env.filenames.Nodup)
    (hreq : ∀ fn ∈ env.filenames, fn ∈ existingFiles p.dir0)
    (hall : ∀ e ∈ p.dir0, isValidRgb (some e.2) env.expect = true)
    (hf0 : fn0 ∈ env.filenames)
    (hs : env.partition fn0 = some s0)
    (hl : p.loadOk fn0 = true) (hdg : p.degradeOk fn0 = true)
    (hsv : p.savedData fn0 = some d0)
    (hbad : isValidRgb (some dbad) env.expect = false) :
    (toBuild env.filenames (removeFile p.dir0 fn0) env.expect = {fn0} ∧
      (buildPass env p (removeFile p.dir0 fn0)
          (toBuild env.filenames (removeFile p.dir0 fn0) env.expect)).writes = 1 ∧
      (buildPass env p (removeFile p.dir0 fn0)
          (toBuild env.filenames (removeFile p.dir0 fn0) env.expect)).transforms = 1 ∧
      lookupFile (buildPass env p (removeFile p.dir0 fn0)
          (toBuild env.filenames (removeFile p.dir0 fn0) env.expect)).dir fn0 = some d0 ∧
      ∀ fn, fn ≠ fn0 →
        lookupFile (buildPass env p (removeFile p.dir0 fn0)
            (toBuild env.filenames (removeFile p.dir0 fn0) env.expect)).dir fn =
          lookupFile (removeFile p.dir0 fn0) fn) ∧
    (toBuild env.filenames (corruptFile p.dir0 fn0 dbad) env.expect = {fn0} ∧
      (buildPass env p (corruptFile p.dir0 fn0 dbad)
          (toBuild env.filenames (corruptFile p.dir0 fn0 dbad) env.expect)).writes = 1 ∧
      (buildPass env p (corruptFile p.dir0 fn0 dbad)
          (toBuild env.filenames (corruptFile p.dir0 fn0 dbad) env.expect)).transforms = 1 ∧
      lookupFile (buildPass env p (corruptFile p.dir0 fn0 dbad)
          (toBuild env.filenames (corruptFile p.dir0 fn0 dbad) env.expect)).dir fn0 =
        some d0 ∧
      ∀ fn, fn ≠ fn0 →
        lookupFile (buildPass env p (corruptFile p.dir0 fn0 dbad)
            (toBuild env.filenames (corruptFile p.dir0 fn0 dbad) env.expect)).dir fn =
          lookupFile (corruptFile p.dir0 fn0 dbad) fn) := by
  have hdel := toBuild_removeFile_eq env hreq hall hf0
  have hcor := toBuild_corruptFile_eq env hnd hreq hall hf0 hbad
  have hbp1 := buildPass_single env p (removeFile p.dir0 fn0) hfnnd hf0 hs hl hdg hsv
  have hbp2 := buildPass_single env p (corruptFile p.dir0 fn0 dbad) hfnnd hf0 hs hl hdg hsv
  constructor
  · rw [hdel, hbp1]
    refine ⟨rfl, rfl, rfl, lookupFile_upsert_self _ _ _, fun fn hne => ?_⟩
    exact lookupFile_upsert_ne _ _ hne
  · rw [hcor, hbp2]
    refine ⟨rfl, rfl, rfl, lookupFile_upsert_self _ _ _, fun fn hne => ?_⟩
    exact lookupFile_upsert_ne _ _ hne

theorem minimal_rebuild_exact_witness :
    toBuild ["a.jpg"]
        (removeFile [("a.jpg", (⟨2000, true, 8, 8⟩ : FileData))] "a.jpg") none =
      ({"a.jpg"} : Finset String) ∧
    lookupFile (buildPass ⟨["a.jpg"], fun _ => some 0, none⟩
        ⟨"blur", [("a.jpg", ⟨2000, true, 8, 8⟩)], fun _ => true, fun _ => true,
          fun _ => some ⟨1500, true, 8, 8⟩⟩
        (removeFile [("a.jpg", (⟨2000, true, 8, 8⟩ : FileData))] "a.jpg")
        (toBuild ["a.jpg"]
          (removeFile [("a.jpg", (⟨2000, true, 8, 8⟩ : FileData))] "a.jpg") none)).dir
      "a.jpg" = some ⟨1500, true, 8, 8⟩ := by
  have h := minimal_rebuild_exact ⟨["a.jpg"], fun _ => some 0, none⟩
    ⟨"blur", [("a.jpg", ⟨2000, true, 8, 8⟩)], fun _ => true, fun _ => true,
      fun _ => some ⟨1500, true, 8, 8⟩⟩
    "a.jpg" 0 ⟨1500, true, 8, 8⟩ ⟨0, false, 0, 0⟩
    (by decide) (by decide) (by decide) (by decide) (by decide) rfl rfl rfl rfl
    (by decide)
  exact ⟨h.1.1, h.1.2.2.2.1⟩

/-- C5 counterexample: a finalization in which the closing sanity check
fails (the sole row's degraded file is gone at verification time) still
persists the manifest — `manifestWritten` is `some` even though
`exitFatal` is set, because stage.py lines 187-193 perform the
`os.replace` of the manifest before the verification of lines 195-202.
This refutes "no manifest is persisted for that run". -/
theorem sanity_failure_manifest_persisted_counterexample :
    (s3Finalize [⟨"a.jpg", "blur", 0⟩] (fun _ => none) none).exitFatal = true ∧
    (s3Finalize [⟨"a.jpg", "blur", 0⟩] (fun _ => none) none).manifestWritten ≠ none := by
  decide

/-- C5 amended: when the closing sanity check fails, the stage does
terminate fatally (`SystemExit(1)`), but only after the manifest file
has already been written: the manifest is persisted for that run. -/
theorem sanity_failure_fatal_after_write (rows : List S3Row)
    (fileAt : S3Row → Option FileData) (expect : Option (Nat × Nat))
    (h : rows.countP (fun r => isValidRgb (fileAt r) expect) ≠ rows.length) :
    (s3Finalize rows fileAt expect).exitFatal = true ∧
    (s3Finalize rows fileAt expect).manifestWritten = some rows := by
  unfold s3Finalize
  simp [h]

theorem sanity_failure_fatal_after_write_witness :
    (([⟨"a.jpg", "blur", 0⟩] : List S3Row).countP
        (fun r => isValidRgb ((fun _ => (none : Option FileData)) r) none) ≠
      ([⟨"a.jpg", "blur", 0⟩] : List S3Row).length) ∧
    (s3Finalize [⟨"a.jpg", "blur", 0⟩] (fun _ => none) none).exitFatal = true :=
  ⟨by decide,
    (sanity_failure_fatal_after_write [⟨"a.jpg", "blur", 0⟩] (fun _ => none) none
      (by decide)).1⟩

/-- C10: a file present and Valid in a preset's output directory whose
id has a partition entry receives a manifest row even when its filename
is not among the required aligned inputs; the build loop never touches
it (it iterates only over required filenames), and — as the closing
concrete conjunct shows — such strays can make the manifest row count
exceed the number of required ids. -/
theorem stray_valid_file_manifest_row (env : S3Env) (p : S3PresetRun)
    (fn : String) (d : FileData) (s : Int)
    (hstray : fn ∉ env.filenames)
    (hlook : lookupFile p.dir0 fn = some d)
    (hvalid : isValidRgb (some d) env.expect = true)
    (hpart : env.partition fn = some s) :
    lookupFile (presetFinalDir env p) fn = some d ∧
    (⟨fn, p.name, s⟩ : S3Row) ∈ manifestRowsFor env p.name (presetFinalDir env p) ∧
    (manifestRowsFor ⟨["a.jpg"], fun _ => some 0, none⟩ "blur"
        [("a.jpg", (⟨2000, true, 8, 8⟩ : FileData)),
         ("b.jpg", (⟨2000, true, 8, 8⟩ : FileData))]).length >
      (["a.jpg"] : List String).length := by
  have hkeep : lookupFile (presetFinalDir env p) fn = some d := by
    unfold presetFinalDir buildPass
    rw [foldl_buildStep_lookup_not_mem env p _ env.filenames _ hstray]
    exact hlook
  refine ⟨hkeep, ?_, by decide⟩
  apply List.mem_filterMap.mpr
  refine ⟨fn, ?_, by rw [hpart]; rfl⟩
  exact mem_validNow.mpr ⟨d, lookupFile_mem hkeep, hvalid⟩

theorem stray_valid_file_manifest_row_witness :
    ("b.jpg" ∉ ["a.jpg"]) ∧
    (⟨"b.jpg", "blur", 0⟩ : S3Row) ∈
      manifestRowsFor ⟨["a.jpg"], fun _ => some 0, none⟩ "blur"
        (presetFinalDir ⟨["a.jpg"], fun _ => some 0, none⟩
          ⟨"blur", [("b.jpg", ⟨2000, true, 8, 8⟩)], fun _ => true, fun _ => true,
            fun _ => none⟩) :=
  ⟨by decide,
    (stray_valid_file_manifest_row ⟨["a.jpg"], fun _ => some 0, none⟩
      ⟨"blur", [("b.jpg", ⟨2000, true, 8, 8⟩)], fun _ => true, fun _ => true,
        fun _ => none⟩
      "b.jpg" ⟨2000, true, 8, 8⟩ 0
      (by decide) (by decide) (by decide) rfl).2.1⟩

/-! ### s4 restoration stage (`src/s4_gfpgan/stage.py`, `run`)

The restoration run consumes the s3 manifest rows, groups them by
degradation preset (a Python `defaultdict` keyed in insertion order),
and for each row loads `path_deg`, runs inference, saves the restored
image directly to `path_restored`, and appends a manifest row.  The
filesystem here is a map from full path strings to files, because rows
carry full `path_deg` strings from the s3 manifest. -/

/-- One input row of the s3 manifest as s4 reads it. -/
structure S4InRow where
  id : String
  pathGt : String
  pathDeg : String
  degradation : String
  split : Int
deriving DecidableEq, Repr

/-- `load_image_rgb` from `src/s4_gfpgan/utils/io.py` (lines 27-62):
exists, strictly positive byte size, full decode, positive decoded
dimensions.  Note the size floor is 0, not the ValidityScanner's 1024. -/
def loadImageRgbOk (f : Option FileData) : Bool :=
  match f with
  | none => false
  | some d =>
    decide (0 < d.sizeBytes) && d.decodesOk && decide (0 < d.width) &&
      decide (0 < d.height)

/-- `path_restored = os.path.join(outputs_root, preset, "imgs", id)`
(stage.py line 107). -/
def restoredPath (r : S4InRow) : String :=
  "results/outputs/s4-gfpgan/" ++ r.degradation ++ "/imgs/" ++ r.id

/-- One output row of `s4_gfpgan_manifest.csv` (stage.py lines 115-127). -/
structure S4OutRow where
  id : String
  pathGt : String
  pathDeg : String
  pathRestored : String
  degradation : String
  split : Int
  restoredW : Nat
  restoredH : Nat
deriving DecidableEq, Repr

/-- The s4 run inputs: the s3 manifest rows, the filesystem at start of
the run, and the per-item oracles — `enhanceOk` for GFPGAN inference
succeeding, `saveOk` for `save_image_jpeg` not raising, and
`restoredData` for the file its direct write leaves at
`path_restored` (whose width/height are the restored image's). -/
structure S4Env where
  rows : List S4InRow
  fs0 : String → Option FileData
  enhanceOk : S4InRow → Bool
  saveOk : S4InRow → Bool
  restoredData : S4InRow → FileData

/-- Preset names in order of first appearance in the manifest
(Python dict insertion order); `seen` accumulates names already
emitted. -/
def firstOccurAux (seen : List String) : List String → List String
  | [] => []
  | x :: xs =>
    if x ∈ seen then firstOccurAux seen xs
    else x :: firstOccurAux (x :: seen) xs

def firstOccur (l : List String) : List String :=
  firstOccurAux [] l

/-- The row order the `by_preset` grouping induces (stage.py lines
58-61, 75): presets in order of first appearance, rows of each preset in
manifest order. -/
def groupedRows (rows : List S4InRow) : List S4InRow :=
  (firstOccur (rows.map (fun r => r.degradation))).flatMap
    (fun q => rows.filter (fun r => r.degradation == q))

/-- A direct (non-atomic) write of file data at a path. -/
def updateFs (fs : String → Option FileData) (q : String) (d : FileData) :
    String → Option FileData :=
  fun x => if x == q then some d else fs x

/-- One iteration of the s4 inference loop (stage.py lines 86-131):
load `path_deg` (skip on failure), infer (skip on failure), save
directly to `path_restored` (skip on failure), then append the manifest
row recording the restored dimensions. -/
def s4Step (env : S4Env) (acc : (String → Option FileData) × List S4OutRow)
    (r : S4InRow) : (String → Option FileData) × List S4OutRow :=
  if loadImageRgbOk (acc.1 r.pathDeg) then
    if env.enhanceOk r then
      if env.saveOk r then
        let d := env.restoredData r
        (updateFs acc.1 (restoredPath r) d,
          acc.2 ++ [⟨r.id, r.pathGt, r.pathDeg, restoredPath r, r.degradation,
            r.split, d.width, d.height⟩])
      else acc
    else acc
  else acc

/-- The whole inference loop, returning the final filesystem and the
collected manifest rows. -/
def s4Run (env : S4Env) : (String → Option FileData) × List S4OutRow :=
  (groupedRows env.rows).foldl (s4Step env) (env.fs0, [])

/-- Outcome of the closing section of the s4 run (stage.py lines
142-169): an empty row set aborts before writing; otherwise the manifest
is written (line 157) and only then is the existence-only sanity check
run (lines 160-169), raising `SystemExit(1)` on mismatch with the
manifest already on disk. -/
structure S4Result where
  manifestWritten : Option (List S4OutRow)
  exitFatal : Bool
deriving DecidableEq, Repr

def s4Finalize (env : S4Env) : S4Result :=
  let out := (s4Run env).2
  let fs1 := (s4Run env).1
  if out.isEmpty then ⟨none, true⟩
  else
    let existN := (out.map (fun r => r.pathRestored)).countP (fun q => (fs1 q).isSome)
    ⟨some out, decide (existN ≠ out.length)⟩

theorem updateFs_isSome_mono {fs : String → Option FileData} {q x : String}
    {d : FileData} (h : (fs x).isSome = true) :
    ((updateFs fs q d) x).isSome = true := by
  unfold updateFs
  by_cases hx : x == q
  · rw [if_pos hx]; rfl
  · rw [if_neg hx]; exact h

theorem updateFs_self (fs : String → Option FileData) (q : String) (d : FileData) :
    updateFs fs q d q = some d := by
  unfold updateFs
  rw [if_pos (by simp)]

/-- Invariant of the s4 loop: every collected manifest row's restored
path is present in the filesystem. -/
theorem s4_foldl_restored_exists (env : S4Env) :
    ∀ (l : List S4InRow) (acc : (String → Option FileData) × List S4OutRow),
      (∀ r ∈ acc.2, (acc.1 r.pathRestored).isSome = true) →
      ∀ r ∈ (l.foldl (s4Step env) acc).2,
        ((l.foldl (s4Step env) acc).1 r.pathRestored).isSome = true := by
  intro l
  induction l with
  | nil => intro acc h; exact h
  | cons q tl ih =>
    intro acc h
    rw [List.foldl_cons]
    apply ih
    unfold s4Step
    split
    · split
      · split
        · intro r hr
          rcases List.mem_append.mp hr with hold | hnew
          · exact updateFs_isSome_mono (h r hold)
          · have : r = ⟨q.id, q.pathGt, q.pathDeg, restoredPath q, q.degradation,
                q.split, (env.restoredData q).width, (env.restoredData q).height⟩ := by
              simpa using hnew
            subst this
            simp [updateFs_self]
        · exact h
      · exact h
    · exact h


/-- With pairwise-distinct preset names, looking a row's preset up among
the presets finds exactly the preset that produced it. -/
theorem find?_name_eq {ps : List S3PresetRun} {p : S3PresetRun}
    (hnames : (ps.map (fun q => q.name)).Nodup) (hp : p ∈ ps) :
    ps.find? (fun q => q.name == p.name) = some p := by
  induction ps with
  | nil => simp at hp
  | cons q tl ih =>
    rw [List.map_cons, List.nodup_cons] at hnames
    rcases List.mem_cons.mp hp with rfl | htl
    · rw [List.find?_cons_of_pos _ (by simp)]
    · by_cases hq : (q.name == p.name) = true
      · exfalso
        have hmem : p.name ∈ tl.map (fun x => x.name) := List.mem_map.mpr ⟨p, htl, rfl⟩
        have hqn : q.name = p.name := by simpa using hq
        exact hnames.1 (hqn ▸ hmem)
      · have hq' : (q.name == p.name) = false := by simpa using hq
        simp only [List.find?_cons, hq']
        exact ih hnames.2 htl

/-- Concrete s4 run exhibiting a finalized manifest row whose `path_deg`
file fails the ValidityScanner: the degraded input is a 500-byte
decodable file, which `load_image_rgb` accepts (its floor is a strictly
positive size) but `_is_valid_rgb` rejects (floor 1024). -/
def s4DemoEnv : S4Env where
  rows := [⟨"001.jpg", "gt/001.jpg", "deg/001.jpg", "blur", 0⟩]
  fs0 := fun q => if q == "deg/001.jpg" then some ⟨500, true, 8, 8⟩ else none
  enhanceOk := fun _ => true
  saveOk := fun _ => true
  restoredData := fun _ => ⟨2000, true, 8, 8⟩

/-- C1 counterexample: an s4 run that finalizes its manifest (the row
set is written at stage.py line 157) while the row's `path_deg` file
does not pass the ValidityScanner's Valid classification — s4 never
re-runs the validity check, so a degraded input below the 1024-byte
sanity floor yields a finalized row referencing a non-Valid file. -/
theorem s4_manifest_row_invalid_counterexample :
    (s4Finalize s4DemoEnv).manifestWritten = some (s4Run s4DemoEnv).2 ∧
    (s4Run s4DemoEnv).2.length = 1 ∧
    ∀ r ∈ (s4Run s4DemoEnv).2,
      isValidRgb ((s4Run s4DemoEnv).1 r.pathDeg) none = false := by
  decide

/-- C1 amended: in the degradation stage (s3), every finalized manifest
row's degraded file passes the ValidityScanner's Valid classification at
finalization (on a filesystem quiescent during the run); in the
restoration stage (s4), every finalized row's restored file exists at
finalization, but the rows are not re-checked against the Valid
classification (the counterexample shows a finalized s4 row whose
`path_deg` is not Valid). -/
theorem manifest_rows_validity (env : S3Env) (ps : List S3PresetRun) (env4 : S4Env)
    (hnds : ∀ p ∈ ps, (existingFiles p.dir0).Nodup)
    (hnames : (ps.map (fun q => q.name)).Nodup) :
    (∀ r ∈ s3AllRows env ps,
      isValidRgb (s3StaticFileAt env ps r) env.expect = true) ∧
    (∀ r ∈ (s4Run env4).2, ((s4Run env4).1 r.pathRestored).isSome = true) := by
  constructor
  · intro r hr
    rcases List.mem_flatMap.mp hr with ⟨p, hp, hrp⟩
    rcases List.mem_filterMap.mp hrp with ⟨fn, hfn, hmap⟩
    rcases Option.map_eq_some'.mp hmap with ⟨s, hs, hrow⟩
    subst hrow
    have hndp : (existingFiles (presetFinalDir env p)).Nodup := by
      unfold presetFinalDir buildPass
      exact foldl_buildStep_nodup env p _ env.filenames _ (hnds p hp)
    unfold s3StaticFileAt
    dsimp only
    rw [find?_name_eq hnames hp]
    exact (validNow_iff_lookup hndp).mp hfn
  · intro r hr
    exact s4_foldl_restored_exists env4 (groupedRows env4.rows) (env4.fs0, [])
      (fun x hx => absurd hx (List.not_mem_nil x)) r hr

theorem manifest_rows_validity_witness :
    (([⟨"blur", [("a.jpg", ⟨2000, true, 8, 8⟩)], fun _ => true, fun _ => true,
        fun _ => none⟩] : List S3PresetRun).map (fun q => q.name)).Nodup ∧
    (∀ r ∈ s3AllRows ⟨["a.jpg"], fun _ => some 0, none⟩
        [⟨"blur", [("a.jpg", ⟨2000, true, 8, 8⟩)], fun _ => true, fun _ => true,
          fun _ => none⟩],
      isValidRgb (s3StaticFileAt ⟨["a.jpg"], fun _ => some 0, none⟩
        [⟨"blur", [("a.jpg", ⟨2000, true, 8, 8⟩)], fun _ => true, fun _ => true,
          fun _ => none⟩] r) none = true) :=
  ⟨by decide,
    (manifest_rows_validity ⟨["a.jpg"], fun _ => some 0, none⟩
      [⟨"blur", [("a.jpg", ⟨2000, true, 8, 8⟩)], fun _ => true, fun _ => true,
        fun _ => none⟩] s4DemoEnv (by decide) (by decide)).1⟩


/-! ### s2a alignment (`src/s2_align/s2a.py`)

Geometry is embedded over exact rationals.  The similarity estimator in
the source delegates to OpenCV's `estimateAffinePartial2D` (LMEDS); its
core is the least-squares 4-degree-of-freedom similarity fit, which the
robust wrapper reduces to when the correspondences have zero residual. -/

/-- `CANONICAL_5PT` (s2a.py lines 30-36): left eye, right eye, nose,
left mouth corner, right mouth corner in the canonical 256×256 frame. -/
def CANONICAL_5PT : List (ℚ × ℚ) :=
  [(70, 100), (186, 100), (128, 142), (88, 182), (168, 182)]

/-- Model of `estimate_similarity_transform(src_pts, dst_pts)` (s2a.py
lines 71-74): the closed-form least-squares similarity fit
`(x, y) ↦ (a·x − b·y + tx, b·x + a·y + ty)` that
`cv2.estimateAffinePartial2D` computes (LMedS reduces to it when the
correspondences fit exactly).  Returns `none` — the source's `M is
None` — when the normal equations are singular (degenerate point
configuration). -/
def estimateSimilarity (src dst : List (ℚ × ℚ)) :
    Option (ℚ × ℚ × ℚ × ℚ) :=
  let n : ℚ := src.length
  let sx := (src.map Prod.fst).sum
  let sy := (src.map Prod.snd).sum
  let su := (dst.map Prod.fst).sum
  let sv := (dst.map Prod.snd).sum
  let sxx := (src.map (fun q => q.1 * q.1 + q.2 * q.2)).sum
  let sxu := ((src.zip dst).map (fun q => q.1.1 * q.2.1 + q.1.2 * q.2.2)).sum
  let sxv := ((src.zip dst).map (fun q => q.1.1 * q.2.2 - q.1.2 * q.2.1)).sum
  let den := n * sxx - sx * sx - sy * sy
  if den = 0 then none
  else
    let a := (n * sxu - sx * su - sy * sv) / den
    let b := (n * sxv - sx * sv + sy * su) / den
    let tx := (su - a * sx + b * sy) / n
    let ty := (sv - b * sx - a * sy) / n
    some (a, b, tx, ty)

/-- Apply the estimated 2×3 matrix `[[a, −b, tx], [b, a, ty]]` to one
point. -/
def applySim (m : ℚ × ℚ × ℚ × ℚ) (p : ℚ × ℚ) : ℚ × ℚ :=
  (m.1 * p.1 - m.2.1 * p.2 + m.2.2.1, m.2.1 * p.1 + m.1 * p.2 + m.2.2.2)

/-- C9: estimating the similarity transform with the canonical 5-point
set as both source and destination yields exactly the identity transform
(`a = 1, b = 0, tx = ty = 0` — epsilon 0 in exact arithmetic), and
applying that estimate to the canonical points reproduces the canonical
coordinates exactly. -/
theorem estimate_identity_roundtrip :
    estimateSimilarity CANONICAL_5PT CANONICAL_5PT = some (1, 0, 0, 0) ∧
    CANONICAL_5PT.map (applySim (1, 0, 0, 0)) = CANONICAL_5PT := by
  constructor
  · norm_num [estimateSimilarity, CANONICAL_5PT]
  · norm_num [applySim, CANONICAL_5PT]

/-- One record of the s2a batch: its filename, whether
`Image.open(...).convert("RGB")` succeeds, the decoded image's
dimensions, its landmark row (`none` when absent from the CSV; the raw
flat value list otherwise, paired into points), and whether the final
`PIL` save succeeds. -/
structure S2ARecord where
  fname : String
  decodeOk : Bool
  width : ℚ
  height : ℚ
  landmarks : Option (List (ℚ × ℚ))
  saveOk : Bool
deriving DecidableEq, Repr

/-- The per-record outcomes run_s2a distinguishes (one per logger branch
of s2a.py lines 109-141). -/
inductive S2AOutcome where
  | saved
  | skipRead
  | skipNoLandmarks
  | skipOOB
  | skipTransform
deriving DecidableEq, Repr

deriving instance DecidableEq for Except

/-- The bounds validation of s2a.py lines 127-128: every landmark must
satisfy `0 ≤ x < w` and `0 ≤ y < h`. -/
def landmarksInBounds (pts : List (ℚ × ℚ)) (w h : ℚ) : Bool :=
  pts.all (fun q =>
    decide (0 ≤ q.1) && decide (q.1 < w) && decide (0 ≤ q.2) && decide (q.2 < h))

/-- One iteration of the run_s2a loop (s2a.py lines 105-159): decode
(skip on failure), landmark lookup (skip when missing), `reshape(5, 2)`
(an uncaught exception — `.error` — when the row does not hold exactly
5 points), bounds check (skip when out of bounds), transform estimation
(skip when `None`), warp, save (`PIL` save raising is uncaught). -/
def processRecord (r : S2ARecord) : Except Unit S2AOutcome :=
  if ¬ r.decodeOk then .ok .skipRead
  else
    match r.landmarks with
    | none => .ok .skipNoLandmarks
    | some pts =>
      if pts.length ≠ 5 then .error ()
      else if ¬ landmarksInBounds pts r.width r.height then .ok .skipOOB
      else
        match estimateSimilarity pts CANONICAL_5PT with
        | none => .ok .skipTransform
        | some _ => if r.saveOk then .ok .saved else .error ()

/-- The run counters of s2a.py (`processed`, `skipped`) and the aligned
output filenames written. -/
structure S2ASummary where
  outputs : List String
  processed : Nat
  skipped : Nat
deriving DecidableEq, Repr

def s2aStep (acc : Except Unit S2ASummary) (r : S2ARecord) :
    Except Unit S2ASummary :=
  match acc with
  | .error e => .error e
  | .ok s =>
    match processRecord r with
    | .error _ => .error ()
    | .ok .saved => .ok ⟨s.outputs ++ [r.fname], s.processed + 1, s.skipped⟩
    | .ok _ => .ok ⟨s.outputs, s.processed, s.skipped + 1⟩

def runS2A (recs : List S2ARecord) : Except Unit S2ASummary :=
  recs.foldl s2aStep (.ok ⟨[], 0, 0⟩)

/-- Stage entry (s2a.py lines 83-89): a missing raw-image directory or
landmark CSV aborts before the loop; otherwise the batch runs. -/
def runS2AStage (rawDirExists landmarkCsvExists : Bool)
    (recs : List S2ARecord) : Except Unit S2ASummary :=
  if ¬ rawDirExists then .error ()
  else if ¬ landmarkCsvExists then .error ()
  else runS2A recs

/-- The output filename a record contributes, if any. -/
def savedName (r : S2ARecord) : Option String :=
  match processRecord r with
  | .ok .saved => some r.fname
  | _ => none

/-- Whether a record is counted in `skipped`. -/
def isSkipR (r : S2ARecord) : Bool :=
  match processRecord r with
  | .ok .saved => false
  | .ok _ => true
  | .error _ => false

/-- When no record raises, the run completes and its summary is the
per-record aggregation. -/
theorem runS2A_foldl_ok :
    ∀ (l : List S2ARecord) (s : S2ASummary),
      (∀ r ∈ l, processRecord r ≠ .error ()) →
      l.foldl s2aStep (.ok s) =
        .ok ⟨s.outputs ++ l.filterMap savedName,
             s.processed + l.countP (fun r => (savedName r).isSome),
             s.skipped + l.countP isSkipR⟩
  | [], s, _ => by simp
  | r :: tl, s, h => by
      have hr := h r (List.mem_cons_self _ _)
      have htl : ∀ q ∈ tl, processRecord q ≠ .error () :=
        fun q hq => h q (List.mem_cons_of_mem _ hq)
      rw [List.foldl_cons]
      cases hp : processRecord r with
      | error e => cases e; exact absurd hp hr
      | ok o =>
        have hsv : savedName r = if o = .saved then some r.fname else none := by
          cases o <;> simp [savedName, hp]
        have hsk : isSkipR r = (o ≠ .saved : Bool) := by
          cases o <;> simp [isSkipR, hp]
        cases o with
        | saved =>
          have hstep : s2aStep (.ok s) r =
              .ok ⟨s.outputs ++ [r.fname], s.processed + 1, s.skipped⟩ := by
            simp [s2aStep, hp]
          rw [hstep, runS2A_foldl_ok tl _ htl]
          simp only [List.filterMap_cons, List.countP_cons, hsv, hsk]
          simp [List.append_assoc]
          omega
        | skipRead =>
          have hstep : s2aStep (.ok s) r =
              .ok ⟨s.outputs, s.processed, s.skipped + 1⟩ := by
            simp [s2aStep, hp]
          rw [hstep, runS2A_foldl_ok tl _ htl]
          simp only [List.filterMap_cons, List.countP_cons, hsv, hsk]
          simp
          omega
        | skipNoLandmarks =>
          have hstep : s2aStep (.ok s) r =
              .ok ⟨s.outputs, s.processed, s.skipped + 1⟩ := by
            simp [s2aStep, hp]
          rw [hstep, runS2A_foldl_ok tl _ htl]
          simp only [List.filterMap_cons, List.countP_cons, hsv, hsk]
          simp
          omega
        | skipOOB =>
          have hstep : s2aStep (.ok s) r =
              .ok ⟨s.outputs, s.processed, s.skipped + 1⟩ := by
            simp [s2aStep, hp]
          rw [hstep, runS2A_foldl_ok tl _ htl]
          simp only [List.filterMap_cons, List.countP_cons, hsv, hsk]
          simp
          omega
        | skipTransform =>
          have hstep : s2aStep (.ok s) r =
              .ok ⟨s.outputs, s.processed, s.skipped + 1⟩ := by
            simp [s2aStep, hp]
          rw [hstep, runS2A_foldl_ok tl _ htl]
          simp only [List.filterMap_cons, List.countP_cons, hsv, hsk]
          simp
          omega


/-- C8: a record whose 5 landmarks include an out-of-bounds coordinate
is skipped at the bounds check, before any transform estimation is
attempted; no aligned output carries its filename; the rest of the batch
runs exactly as it would without that record (same outputs, same
processed count, one more skip); and the stage — its structural
preconditions holding and no record raising — completes without a fatal
error. -/
theorem oob_landmarks_skipped (recs : List S2ARecord) (r : S2ARecord)
    (pts : List (ℚ × ℚ))
    (hmem : r ∈ recs)
    (hdec : r.decodeOk = true)
    (hlm : r.landmarks = some pts)
    (hlen : pts.length = 5)
    (hoob : landmarksInBounds pts r.width r.height = false)
    (hok : ∀ q ∈ recs, processRecord q ≠ .error ())
    (hnd : (recs.map (fun q => q.fname)).Nodup) :
    processRecord r = .ok .skipOOB ∧
    runS2AStage true true recs = runS2A recs ∧
    ∃ s, runS2A recs = .ok s ∧ r.fname ∉ s.outputs ∧
      ∃ t, runS2A (recs.erase r) = .ok t ∧
        t.outputs = s.outputs ∧ t.processed = s.processed ∧
        t.skipped + 1 = s.skipped := by
  have hpr : processRecord r = .ok .skipOOB := by
    simp [processRecord, hdec, hlm, hlen, hoob]
  have hsvr : savedName r = none := by simp [savedName, hpr]
  have hskr : isSkipR r = true := by simp [isSkipR, hpr]
  refine ⟨hpr, by simp [runS2AStage], ?_⟩
  have hchar := runS2A_foldl_ok recs ⟨[], 0, 0⟩ hok
  have hok' : ∀ q ∈ recs.erase r, processRecord q ≠ .error () :=
    fun q hq => hok q (List.mem_of_mem_erase hq)
  have hchar' := runS2A_foldl_ok (recs.erase r) ⟨[], 0, 0⟩ hok'
  rcases List.exists_erase_eq hmem with ⟨l1, l2, hnotin, hsplit, herase⟩
  refine ⟨_, hchar, ?_, _, hchar', ?_, ?_, ?_⟩
  · intro hmemo
    rcases List.mem_filterMap.mp (by simpa using hmemo) with ⟨q, hq, hqs⟩
    have hqf : q.fname = r.fname := by
      unfold savedName at hqs
      cases hpq : processRecord q with
      | error e => rw [hpq] at hqs; simp at hqs
      | ok o =>
        cases o with
        | saved =>
          rw [hpq] at hqs
          simpa using hqs
        | skipRead => rw [hpq] at hqs; simp at hqs
        | skipNoLandmarks => rw [hpq] at hqs; simp at hqs
        | skipOOB => rw [hpq] at hqs; simp at hqs
        | skipTransform => rw [hpq] at hqs; simp at hqs
    have hqr : q = r := List.inj_on_of_nodup_map hnd hq hmem hqf
    rw [hqr, hsvr] at hqs
    simp at hqs
  · dsimp only
    rw [herase, hsplit]
    simp [List.filterMap_append, List.filterMap_cons, hsvr]
  · dsimp only
    rw [herase, hsplit]
    simp [List.countP_append, List.countP_cons, hsvr]
  · dsimp only
    rw [herase, hsplit]
    simp [List.countP_append, List.countP_cons, hskr]
    omega

theorem oob_landmarks_skipped_witness :
    ((⟨"003.jpg", true, 10, 10, some [(-5, 1), (1, 1), (2, 2), (3, 3), (4, 4)],
        true⟩ : S2ARecord) ∈
      ([⟨"003.jpg", true, 10, 10, some [(-5, 1), (1, 1), (2, 2), (3, 3), (4, 4)],
        true⟩] : List S2ARecord)) ∧
    processRecord ⟨"003.jpg", true, 10, 10,
      some [(-5, 1), (1, 1), (2, 2), (3, 3), (4, 4)], true⟩ = .ok .skipOOB :=
  ⟨List.mem_cons_self _ _,
    (oob_landmarks_skipped
      [⟨"003.jpg", true, 10, 10, some [(-5, 1), (1, 1), (2, 2), (3, 3), (4, 4)], true⟩]
      ⟨"003.jpg", true, 10, 10, some [(-5, 1), (1, 1), (2, 2), (3, 3), (4, 4)], true⟩
      [(-5, 1), (1, 1), (2, 2), (3, 3), (4, 4)]
      (List.mem_cons_self _ _) rfl rfl (by decide) (by decide)
      (by
        intro q hq
        have hq' : q = ⟨"003.jpg", true, 10, 10,
            some [(-5, 1), (1, 1), (2, 2), (3, 3), (4, 4)], true⟩ := by
          simpa using hq
        rw [hq']
        decide)
      (by decide)).1⟩

end Pipeline
